import Mathlib

/-!
Verification of the qqqa command-safety subsystem.

This development shallowly embeds the safety-relevant parts of the
program: the command classifier in `src/perms.rs` (`ensure_safe_command`,
`contains_control_operators`, `split_command_segments`,
`enforce_program_specific_rules`), the path guard (`ensure_safe_path`,
`normalize_path`), and the execution supervisor in
`src/tools/execute_command.rs` (`run`, the stream collector and the
kill-switch).  Strings are embedded as `List Char`; the global mutable
custom allowlist is passed explicitly; the environment-variable bypass
switch is an explicit boolean; filesystem and process effects are
abstracted into explicit state records.
-/

deriving instance DecidableEq for Except

namespace Qqqa

/-! ## Basic string utilities (Rust `str` methods used by `perms.rs`) -/

/-- Model of Rust `char::is_whitespace`: the Unicode `White_Space`
property, listed explicitly by code point. -/
def rustIsWhitespace (c : Char) : Bool :=
  c.val = 0x9 || c.val = 0xA || c.val = 0xB || c.val = 0xC || c.val = 0xD ||
  c.val = 0x20 || c.val = 0x85 || c.val = 0xA0 || c.val = 0x1680 ||
  (0x2000 ≤ c.val && c.val ≤ 0x200A) ||
  c.val = 0x2028 || c.val = 0x2029 || c.val = 0x202F || c.val = 0x205F ||
  c.val = 0x3000

/-- Model of Rust `str::trim`: drop whitespace from both ends. -/
def trimChars (cs : List Char) : List Char :=
  ((cs.dropWhile rustIsWhitespace).reverse.dropWhile rustIsWhitespace).reverse

/-- Model of Rust `str::to_lowercase`, restricted to the ASCII range
(the full method also lowercases non-ASCII letters; it agrees with this
function on ASCII, and every pattern the program searches for in a
lowercased command is ASCII). -/
def rustToLower (c : Char) : Char :=
  if 0x41 ≤ c.val && c.val ≤ 0x5A then Char.ofNat (c.toNat + 32) else c

/-- Boolean list-prefix test, used to model Rust `str::starts_with` and
as the core of the substring search. -/
def isPrefixOfB : List Char → List Char → Bool
  | [], _ => true
  | _ :: _, [] => false
  | a :: as, b :: bs => a == b && isPrefixOfB as bs

/-- Model of Rust `str::contains` with a string pattern: `needle` occurs
as a contiguous substring of `hay`. -/
def containsSubstr (hay needle : List Char) : Bool :=
  match hay with
  | [] => isPrefixOfB needle []
  | c :: rest => isPrefixOfB needle (c :: rest) || containsSubstr rest needle

/-! ## The control-operator scanner (`contains_control_operators`,
`src/perms.rs` lines 157-217) -/

/-- State-machine core of `contains_control_operators`: the arguments
after the character list are the `in_single`, `in_double` and
`escape_next` flags of the Rust loop. -/
def ccoAux : List Char → Bool → Bool → Bool → Bool
  | [], _, _, _ => false
  | c :: rest, inS, inD, esc =>
    if esc then ccoAux rest inS inD false
    else if c == '\\' then ccoAux rest inS inD (!inS)
    else if c == '\x27' then ccoAux rest (if inD then inS else !inS) inD false
    else if c == '\"' then ccoAux rest inS (if inS then inD else !inD) false
    else if c == '\n' then (if !inS && !inD then true else ccoAux rest inS inD false)
    else if c == '\x60' then (if !inS && !inD then true else ccoAux rest inS inD false)
    else if c == '$' then
      (if !inS then
        (match rest with
         | '(' :: _ => true
         | _ => ccoAux rest inS inD false)
      else ccoAux rest inS inD false)
    else if (c == '&' || c == '|' || c == ';' || c == '>' || c == '<') && !inS && !inD then
      true
    else ccoAux rest inS inD false

/-- Embedding of `contains_control_operators` from `src/perms.rs`: scan the command,
tracking quote and escape state, and report whether an unquoted,
unescaped control operator (newline, backtick, dollar-paren, or one of
the five single-character operators) occurs. -/
def contains_control_operators (cmd : List Char) : Bool :=
  ccoAux cmd false false false

/-! ## Segment splitting (`split_command_segments`,
`src/perms.rs` lines 219-278) -/

/-- State-machine core of `split_command_segments`.  `cur` is the
current segment accumulated in reverse; `acc` is the list of finished
segments in reverse.  A doubled `||`, `&&` or `;;` is collapsed into a
single split point by consuming the repeated character. -/
def scsAux : List Char → List Char → Bool → Bool → Bool → List (List Char) →
    List (List Char)
  | [], cur, _, _, _, acc => (cur.reverse :: acc).reverse
  | c :: rest, cur, inS, inD, esc, acc =>
    if esc then scsAux rest (c :: cur) inS inD false acc
    else if c == '\\' then scsAux rest (c :: cur) inS inD (!inS) acc
    else if c == '\x27' then scsAux rest (c :: cur) (if inD then inS else !inS) inD false acc
    else if c == '\"' then scsAux rest (c :: cur) inS (if inS then inD else !inD) false acc
    else if c == '\n' && !inS && !inD then scsAux rest [] inS inD false (cur.reverse :: acc)
    else if (c == '|' || c == '&' || c == ';') && !inS && !inD then
      (match rest with
       | c2 :: rest2 =>
         if c2 == c then scsAux rest2 [] inS inD false (cur.reverse :: acc)
         else scsAux (c2 :: rest2) [] inS inD false (cur.reverse :: acc)
       | [] => scsAux [] [] inS inD false (cur.reverse :: acc))
    else scsAux rest (c :: cur) inS inD false acc

/-- Embedding of `split_command_segments` from `src/perms.rs`: split a command on
unquoted, unescaped `|`, `&`, `;` and newline. -/
def split_command_segments (cmd : List Char) : List (List Char) :=
  scsAux cmd [] false false false []

/-! ## Shell-word tokenization

The program tokenizes each segment with `shell_words::split` from the
`shell-words` crate (a POSIX-style word splitter).  The crate is an
external dependency, embedded here from its documented parsing rules:
whitespace-delimited words with single-quote, double-quote and
backslash handling; an unclosed quote is a parse error. -/

/-- Parser states of the `shell-words` word splitter. -/
inductive SwState
  | delimiterSt
  | backslashSt
  | unquotedSt
  | unquotedBackslashSt
  | singleQuotedSt
  | doubleQuotedSt
  | doubleQuotedBackslashSt
  deriving DecidableEq, Repr

/-- Core loop of `shell_words::split`.  `word` is the current word in
reverse, `words` the finished words in reverse; `none` models the
crate's missing-closing-quote parse error. -/
def swAux : List Char → SwState → List Char → List (List Char) →
    Option (List (List Char))
  | [], st, word, words =>
    match st with
    | .delimiterSt => some words.reverse
    | .backslashSt => some ((('\\' :: word).reverse) :: words).reverse
    | .unquotedSt => some (word.reverse :: words).reverse
    | .unquotedBackslashSt => some ((('\\' :: word).reverse) :: words).reverse
    | .singleQuotedSt => none
    | .doubleQuotedSt => none
    | .doubleQuotedBackslashSt => none
  | c :: rest, st, word, words =>
    match st with
    | .delimiterSt =>
      if c == '\x27' then swAux rest .singleQuotedSt word words
      else if c == '\"' then swAux rest .doubleQuotedSt word words
      else if c == '\\' then swAux rest .backslashSt word words
      else if c == '\t' || c == ' ' || c == '\n' then swAux rest .delimiterSt word words
      else swAux rest .unquotedSt (c :: word) words
    | .backslashSt =>
      if c == '\n' then swAux rest .delimiterSt word words
      else swAux rest .unquotedSt (c :: word) words
    | .unquotedSt =>
      if c == '\x27' then swAux rest .singleQuotedSt word words
      else if c == '\"' then swAux rest .doubleQuotedSt word words
      else if c == '\\' then swAux rest .unquotedBackslashSt word words
      else if c == '\t' || c == ' ' || c == '\n' then
        swAux rest .delimiterSt [] (word.reverse :: words)
      else swAux rest .unquotedSt (c :: word) words
    | .unquotedBackslashSt =>
      if c == '\n' then swAux rest .unquotedSt word words
      else swAux rest .unquotedSt (c :: word) words
    | .singleQuotedSt =>
      if c == '\x27' then swAux rest .unquotedSt word words
      else swAux rest .singleQuotedSt (c :: word) words
    | .doubleQuotedSt =>
      if c == '\"' then swAux rest .unquotedSt word words
      else if c == '\\' then swAux rest .doubleQuotedBackslashSt word words
      else swAux rest .doubleQuotedSt (c :: word) words
    | .doubleQuotedBackslashSt =>
      if c == '$' || c == '\x60' || c == '\"' || c == '\\' then
        swAux rest .doubleQuotedSt (c :: word) words
      else if c == '\n' then swAux rest .doubleQuotedSt word words
      else swAux rest .doubleQuotedSt (c :: '\\' :: word) words

/-- Embedding of `shell_words::split`: tokenize one command segment into shell
words; `none` is the tokenization failure the classifier turns into a
fatal parse error. -/
def shell_words_split (s : List Char) : Option (List (List Char)) :=
  swAux s .delimiterSt [] []

/-! ## The command classifier (`ensure_safe_command`,
`src/perms.rs` lines 85-149) -/

/-- Embedding of `CommandDisposition` from `src/perms.rs`. -/
inductive CommandDisposition
  | Allowed
  | NeedsConfirmation (reason : String)
  deriving DecidableEq, Repr

/-- The typed error outcomes of `ensure_safe_command` and
`enforce_program_specific_rules`, one constructor per distinct
`Err(...)` site in `src/perms.rs` (`commandNotAllowed` is the typed
`CommandNotAllowedError { program }`). -/
inductive PermError
  | blockedEmpty
  | unparsable
  | commandNotAllowed (program : String)
  | blockedFindActions
  | blockedSedInPlace
  | blockedRmRf
  | blockedSudo
  | blockedDisk
  deriving DecidableEq, Repr

/-- Embedding of `SAFE_COMMANDS` from `src/perms.rs` lines 10-13. -/
def SAFE_COMMANDS : List String :=
  ["awk", "cat", "cut", "df", "du", "env", "echo", "find", "grep", "head", "ls",
   "pwd", "rg", "sed", "sort", "stat", "tail", "tree", "uniq", "wc"]

/-- The `find` actions rejected by `enforce_program_specific_rules`. -/
def FIND_FORBIDDEN : List String := ["-delete", "-exec", "-execdir", "-ok", "-okdir"]

/-- Embedding of `enforce_program_specific_rules` from `src/perms.rs` lines 284-306:
`find` may not carry delete/exec actions, `sed` may not carry an `-i`
flag; every other program passes. -/
def enforce_program_specific_rules (program : String) (tokens : List String) :
    Except PermError Unit :=
  if program == "find" then
    if tokens.any (fun t => FIND_FORBIDDEN.contains t) then .error .blockedFindActions
    else .ok ()
  else if program == "sed" then
    if tokens.any (fun t => t == "-i" || isPrefixOfB ("-i".data) t.data) then
      .error .blockedSedInPlace
    else .ok ()
  else .ok ()

/-- The allowlist decision of the per-segment loop body
(`src/perms.rs` lines 110-120): the first token is the program; it must
be builtin-allowlisted or custom-allowlisted, and a builtin (but not
custom) program is additionally subject to the program-specific
rules. -/
def allowSegmentTokens (custom : List String) (toks : List (List Char)) :
    Except PermError Unit :=
  match toks with
  | [] => .ok ()
  | prog :: _ =>
    let program := String.mk prog
    let builtinAllowed := SAFE_COMMANDS.contains program
    let customAllowed := custom.contains program
    if !builtinAllowed && !customAllowed then .error (.commandNotAllowed program)
    else if builtinAllowed && !customAllowed then
      enforce_program_specific_rules program (toks.map String.mk)
    else .ok ()

/-- The per-segment loop of `ensure_safe_command`
(`src/perms.rs` lines 97-121): whitespace-only segments are skipped,
every other segment is tokenized (failure is fatal) and allowlisted.
The boolean accumulator is the `saw_segment` flag. -/
def checkSegments (custom : List String) : List (List Char) → Bool →
    Except PermError Bool
  | [], saw => .ok saw
  | seg :: rest, saw =>
    let st := trimChars seg
    if st.isEmpty then checkSegments custom rest saw
    else
      match shell_words_split st with
      | none => .error .unparsable
      | some toks =>
        match allowSegmentTokens custom toks with
        | .error e => .error e
        | .ok () => checkSegments custom rest true

/-- Embedding of `ensure_safe_command` from `src/perms.rs` lines 85-149.
`allowUnsafe` models the `QQQA_ALLOW_UNSAFE_COMMANDS` bypass switch and
`custom` the process-wide custom allowlist. -/
def ensure_safe_command (allowUnsafe : Bool) (custom : List String) (cmd : String) :
    Except PermError CommandDisposition :=
  if allowUnsafe then .ok .Allowed
  else
    let trimmed := trimChars cmd.data
    if trimmed.isEmpty then .error .blockedEmpty
    else
      let needsConfirmation := contains_control_operators trimmed
      match checkSegments custom (split_command_segments trimmed) false with
      | .error e => .error e
      | .ok saw =>
        if !saw then .error .blockedEmpty
        else
          let lower := cmd.data.map rustToLower
          if containsSubstr lower ("rm -rf /".data) ||
              containsSubstr lower ("rm -rf -- /".data) then .error .blockedRmRf
          else if containsSubstr lower ("sudo ".data) then .error .blockedSudo
          else if containsSubstr lower ("mkfs".data) ||
              containsSubstr lower ("dd if=".data) then .error .blockedDisk
          else if needsConfirmation then
            .ok (.NeedsConfirmation
              "Command uses shell control operators (pipelines, redirection, chaining).")
          else .ok .Allowed

/-! ## The path guard (`ensure_safe_path`, `src/perms.rs` lines 59-82
and 308-375)

Paths are embedded over a Unix-style model: an absolute path is its
list of segments below the filesystem root, and a candidate input path
is a list of parsed components.  Filesystem effects (`home_dir`,
`current_dir`, `exists`, `canonicalize`) are fields of an explicit
`FileSystem` record. -/

/-- One parsed component of a candidate path, mirroring the variants of
`std::path::Component` that occur on Unix (the Windows `Prefix` variant
is unrepresented). -/
inductive PathComponent
  | rootDir
  | curDir
  | parentDir
  | normal (s : String)
  deriving DecidableEq, Repr

/-- One step of `normalize_path`'s fold over components: the pair is
(has-root, segments).  Pushing the root resets the buffer (as
`PathBuf::push` does for an absolute path), `.` is dropped, `..` pops
the last segment (`PathBuf::pop` is a no-op at the root), and a normal
segment is appended. -/
def normStep (acc : Bool × List String) (c : PathComponent) : Bool × List String :=
  match c with
  | .rootDir => (true, [])
  | .curDir => acc
  | .parentDir => (acc.1, acc.2.dropLast)
  | .normal s => (acc.1, acc.2 ++ [s])

/-- Embedding of `normalize_path` from `src/perms.rs` lines 317-331. -/
def normalize_path (cs : List PathComponent) : Bool × List String :=
  cs.foldl normStep (false, [])

/-- Rust `Path::is_absolute` on Unix: the path has a root component. -/
def path_is_absolute (cs : List PathComponent) : Bool :=
  match cs with
  | .rootDir :: _ => true
  | _ => false

/-- The filesystem environment consumed by the path guard: the home
directory (if any), the current working directory, existence of an
absolute path, and canonicalization (symlink resolution), which may
fail.  Absolute paths are segment lists below the root. -/
structure FileSystem where
  home : Option (List String)
  cwd : List String
  pathExists : List String → Bool
  canonicalize : List String → Option (List String)

/-- Embedding of `resolve_path` from `src/perms.rs` lines 308-315: normalize an
absolute path directly, otherwise join onto the current directory
first.  The result is the segment list of the normalized absolute
path. -/
def resolve_path (fs : FileSystem) (p : List PathComponent) : List String :=
  if path_is_absolute p then (normalize_path p).2
  else (normalize_path (.rootDir :: (fs.cwd.map .normal ++ p))).2

/-- Embedding of `push_unique` from `src/perms.rs` lines 353-357 (the `seen` set is
equivalent to membership in the accumulated list). -/
def push_unique (roots : List (List String)) (p : List String) : List (List String) :=
  if roots.contains p then roots else roots ++ [p]

/-- Embedding of `gather_allowed_roots` from `src/perms.rs` lines 333-351: home and
its canonical form (when home exists and canonicalization succeeds),
then cwd and its canonical form, deduplicated in order. -/
def gather_allowed_roots (fs : FileSystem) : List (List String) :=
  let r1 :=
    match fs.home with
    | some h =>
      let a := push_unique [] h
      match fs.canonicalize h with
      | some ch => push_unique a ch
      | none => a
    | none => []
  let r2 := push_unique r1 fs.cwd
  match fs.canonicalize fs.cwd with
  | some c => push_unique r2 c
  | none => r2

/-- Embedding of `is_within_allowed` from `src/perms.rs` lines 359-361:
`Path::starts_with` on absolute paths is component-wise list prefix. -/
def is_within_allowed (p : List String) (allowed : List (List String)) : Bool :=
  allowed.any (fun root => root.isPrefixOf p)

/-- Fuel-indexed walk of `deepest_existing_ancestor`: each step drops
the last segment.  The fuel argument only bounds the recursion depth
(structurally); it is always called with at least the segment count. -/
def deaGo (fs : FileSystem) : Nat → List String → Option (List String)
  | 0, p => if fs.pathExists p then some p else none
  | n + 1, p =>
    if fs.pathExists p then some p
    else
      match p with
      | [] => none
      | _ :: _ => deaGo fs n p.dropLast

/-- Embedding of `deepest_existing_ancestor` from `src/perms.rs` lines 363-375: walk
upward (ending at the root, whose segment list is empty) until an
existing path is found. -/
def deepest_existing_ancestor (fs : FileSystem) (p : List String) :
    Option (List String) :=
  deaGo fs p.length p

/-- The error outcomes of `ensure_safe_path`: the refusal message
(carrying the resolved path it reports) and a propagated
canonicalization failure. -/
inductive PathError
  | outsideRoots (p : List String)
  | canonicalizeFailed
  deriving DecidableEq, Repr

/-- Embedding of `ensure_safe_path` from `src/perms.rs` lines 59-82: the resolved
path must be under an allowed root, and the canonicalized deepest
existing ancestor of the resolved path (when one exists) must also be
under an allowed root. -/
def ensure_safe_path (fs : FileSystem) (p : List PathComponent) : Except PathError Unit :=
  let resolved := resolve_path fs p
  let allowedRoots := gather_allowed_roots fs
  if !is_within_allowed resolved allowedRoots then .error (.outsideRoots resolved)
  else
    match deepest_existing_ancestor fs resolved with
    | some existing =>
      match fs.canonicalize existing with
      | none => .error .canonicalizeFailed
      | some canonical =>
        if !is_within_allowed canonical allowedRoots then .error (.outsideRoots resolved)
        else .ok ()
    | none => .ok ()

/-- Filesystem of the traversal test: a temp home `/tmp/home1` with
cwd `/tmp/home1/workspace`; every path exists and canonicalization is
the identity (no symlinks). -/
def fsTraversal : FileSystem :=
  { home := some ["tmp", "home1"]
    cwd := ["tmp", "home1", "workspace"]
    pathExists := fun _ => true
    canonicalize := fun p => some p }

/-- Filesystem of the symlink test: home `/tmp/home2`, cwd
`/tmp/home2/workspace` containing a symlink `etc_link` to `/etc`; the
file accessed through the link does not exist yet. -/
def fsSymlink : FileSystem :=
  { home := some ["tmp", "home2"]
    cwd := ["tmp", "home2", "workspace"]
    pathExists := fun p => !(p == ["tmp", "home2", "workspace", "etc_link", "qqqa-test.conf"])
    canonicalize := fun p =>
      if p == ["tmp", "home2", "workspace", "etc_link"] then some ["etc"] else some p }

/-! ## The execution supervisor (`run`,
`src/tools/execute_command.rs` lines 38-158)

The supervisor's effects are abstracted into an explicit environment:
the interactive prompt answers, the spawn result, and the outcome of
the stream-drain race (either the full message sequence received on the
channel, or the 120-second timeout).  The embedded `run` returns a
trace recording which prompts were issued, every chunk handed to the
per-chunk callback, the kill-switch calls made, and the result. -/

/-- Embedding of `StreamKind` from `src/tools/execute_command.rs`. -/
inductive StreamKind
  | stdoutKind
  | stderrKind
  deriving DecidableEq, Repr

/-- Embedding of `StreamMessage` from `src/tools/execute_command.rs`: one channel
message from a reader task (the error payload is irrelevant to the
claims and is dropped). -/
inductive StreamMsg
  | stdoutMsg (data : List Char)
  | stderrMsg (data : List Char)
  | errorMsg
  deriving DecidableEq, Repr

/-- Outcome of racing the drain future against the fixed timeout
(`timeout(Duration::from_secs(120), collect_future)`): either every
message that arrived before the channel closed, or the timeout fired
first. -/
inductive DrainOutcome
  | completed (msgs : List StreamMsg)
  | timedOut

/-- The 120-second stream-drain ceiling of `run`. -/
def STREAM_TIMEOUT_SECS : Nat := 120

/-- A call made on the `KillSwitch` handle, in program order. -/
inductive SupEvent
  | terminate
  | waitChild
  deriving DecidableEq, Repr

/-- Child-process states for the kill-switch model.  `terminate` is
best-effort (kill errors are ignored), so it is not assumed to change
the state; `waitChild` blocks until the child has exited and reaps it,
so after it the child is no longer running. -/
inductive ProcState
  | running
  | reaped
  deriving DecidableEq, Repr

/-- Effect of one kill-switch call on the child. -/
def applyEvent : ProcState → SupEvent → ProcState
  | s, .terminate => s
  | _, .waitChild => .reaped

/-- Child state after a sequence of kill-switch calls. -/
def procStateAfter (events : List SupEvent) : ProcState :=
  events.foldl applyEvent .running

/-- The error outcomes of `run`, one constructor per `Err` source:
a classifier rejection, the fatal cannot-confirm error from
`prompt_yes_no`, the two user cancellations, a spawn failure, a
forwarded stream-read error, and the 120-second timeout. -/
inductive RunError
  | blocked (e : PermError)
  | cannotConfirm
  | canceledOutsideHome
  | canceled
  | spawnFailed
  | streamFailed
  | timedOutErr
  deriving DecidableEq, Repr

/-- Loop body of the drain future (`src/tools/execute_command.rs` lines
96-121): `chunks` records each callback invocation (reversed), `out`
and `err` are the accumulation buffers, and an error message aborts the
drain. -/
def collectGo : List StreamMsg → List (StreamKind × List Char) → List Char →
    List Char → List (StreamKind × List Char) × Except Unit (List Char × List Char)
  | [], chunks, out, err => (chunks.reverse, .ok (out, err))
  | .stdoutMsg d :: rest, chunks, out, err =>
    collectGo rest ((.stdoutKind, d) :: chunks) (out ++ d) err
  | .stderrMsg d :: rest, chunks, out, err =>
    collectGo rest ((.stderrKind, d) :: chunks) out (err ++ d)
  | .errorMsg :: _, chunks, _, _ => (chunks.reverse, .error ())

/-- The drain future over a full message sequence: the callback
invocations in arrival order, and either the final stdout/stderr
buffers or the aborting stream error. -/
def collect (msgs : List StreamMsg) :
    List (StreamKind × List Char) × Except Unit (List Char × List Char) :=
  collectGo msgs [] [] []

/-- Rust `if !s.ends_with('\n') { s.push('\n') }` applied to a
section buffer of the summary. -/
def ensureTrailingNewline (s : List Char) : List Char :=
  if s.getLast? == some '\n' then s else s ++ ['\n']

/-- The summary built at `src/tools/execute_command.rs` lines 145-157:
exit-code line, stdout section, stderr section, with a trailing newline
ensured for each section. -/
def mkSummary (code : Int) (stdout stderr : List Char) : List Char :=
  ("Exit code: " ++ toString code ++ "\n").data ++
    ("--- stdout ---\n").data ++ ensureTrailingNewline stdout ++
    ("--- stderr ---\n").data ++ ensureTrailingNewline stderr

/-- The abstract environment of one `run` call: classifier inputs, the
auto-approval flag, whether a home directory is known and whether the
resolved working directory lies outside it, the interactive prompt
oracle (`.error` models an unreadable terminal), the spawn result, the
drain outcome, and the exit code `KillSwitch.wait` reports. -/
structure RunEnv where
  allowUnsafe : Bool
  custom : List String
  command : String
  autoYes : Bool
  homeExists : Bool
  cwdOutsideHome : Bool
  prompt : Nat → Except Unit Bool
  spawnOk : Bool
  drain : DrainOutcome
  exitCode : Int

/-- Observable trace of one `run` call. -/
structure RunTrace where
  promptsIssued : List String
  chunks : List (StreamKind × List Char)
  events : List SupEvent
  result : Except RunError (List Char)

/-- Prompt text of the outside-home confirmation. -/
def outsideHomePromptLabel : String := "Proceed anyway? [y/N]: "

/-- Prompt text of the main execution confirmation. -/
def executePromptLabel : String := "Execute? [y/N]: "

/-- Whether the classifier disposition forces a manual confirmation
(`requires_manual_confirmation` in `run`). -/
def requiresManualConfirmation : CommandDisposition → Bool
  | .Allowed => false
  | .NeedsConfirmation _ => true

/-- The post-confirmation half of `run`
(`src/tools/execute_command.rs` lines 87-157): spawn, race the drain
against the timeout, and format the summary.  On timeout the
kill-switch is terminated then reaped; on a stream error the error is
surfaced without an explicit wait; on success the exit code is read and
the summary built from the buffers.  `qs` is the list of prompts
already issued. -/
def runExec (env : RunEnv) (qs : List String) : RunTrace :=
  if !env.spawnOk then ⟨qs, [], [], .error .spawnFailed⟩
  else
    match env.drain with
    | .timedOut => ⟨qs, [], [.terminate, .waitChild], .error .timedOutErr⟩
    | .completed msgs =>
      match collect msgs with
      | (chunks, .error ()) => ⟨qs, chunks, [], .error .streamFailed⟩
      | (chunks, .ok (out, err)) =>
        ⟨qs, chunks, [.waitChild], .ok (mkSummary env.exitCode out err)⟩

/-- Embedding of `run` from `src/tools/execute_command.rs` lines 38-158: classify,
confirm (outside-home gate, then the execute gate), then hand over to
the spawn/stream half (`runExec`). -/
def run (env : RunEnv) : RunTrace :=
  match ensure_safe_command env.allowUnsafe env.custom env.command with
  | .error e => ⟨[], [], [], .error (.blocked e)⟩
  | .ok disp =>
    let requiresManual := requiresManualConfirmation disp
    let homeGate : List String × Option RunError :=
      if env.homeExists && env.cwdOutsideHome then
        if !env.autoYes then
          match env.prompt 0 with
          | .error () => ([outsideHomePromptLabel], some .cannotConfirm)
          | .ok false => ([outsideHomePromptLabel], some .canceledOutsideHome)
          | .ok true => ([outsideHomePromptLabel], none)
        else ([], none)
      else ([], none)
    match homeGate with
    | (ps, some e) => ⟨ps, [], [], .error e⟩
    | (ps, none) =>
      let confirmGate : List String × Option RunError :=
        if requiresManual || !env.autoYes then
          match env.prompt ps.length with
          | .error () => (ps ++ [executePromptLabel], some .cannotConfirm)
          | .ok false => (ps ++ [executePromptLabel], some .canceled)
          | .ok true => (ps ++ [executePromptLabel], none)
        else (ps, none)
      match confirmGate with
      | (qs, some e) => ⟨qs, [], [], .error e⟩
      | (qs, none) => runExec env qs

/-- The callback invocation (if any) that one channel message causes:
stdout and stderr messages each produce exactly one chunk, an error
message produces none. -/
def chunkOf : StreamMsg → Option (StreamKind × List Char)
  | .stdoutMsg d => some (.stdoutKind, d)
  | .stderrMsg d => some (.stderrKind, d)
  | .errorMsg => none

/-- The stdout payload of a message, if it is a stdout message. -/
def stdoutOf : StreamMsg → Option (List Char)
  | .stdoutMsg d => some d
  | _ => none

/-- The stderr payload of a message, if it is a stderr message. -/
def stderrOf : StreamMsg → Option (List Char)
  | .stderrMsg d => some d
  | _ => none

/-- The stdout payload of a callback chunk, if it is a stdout chunk. -/
def stdoutPart : StreamKind × List Char → Option (List Char)
  | (.stdoutKind, d) => some d
  | (.stderrKind, _) => none

/-- Concatenation of all stdout payloads of a message sequence: the
final stdout buffer of a successful drain. -/
def stdoutData (msgs : List StreamMsg) : List Char :=
  (msgs.filterMap stdoutOf).flatten

/-- Concatenation of all stderr payloads of a message sequence. -/
def stderrData (msgs : List StreamMsg) : List Char :=
  (msgs.filterMap stderrOf).flatten

/-- A concrete environment whose drain times out: `ls` under
auto-approval, spawn succeeding. -/
def timeoutEnv : RunEnv :=
  { allowUnsafe := false
    custom := []
    command := "ls"
    autoYes := true
    homeExists := false
    cwdOutsideHome := false
    prompt := fun _ => .ok true
    spawnOk := true
    drain := .timedOut
    exitCode := 0 }

/-- A concrete environment in which every prompt is declined: `ls`
without auto-approval, working directory outside home. -/
def declineEnv : RunEnv :=
  { allowUnsafe := false
    custom := []
    command := "ls"
    autoYes := false
    homeExists := true
    cwdOutsideHome := true
    prompt := fun _ => .ok false
    spawnOk := true
    drain := .completed []
    exitCode := 0 }

/-- A concrete environment with a successful two-write drain. -/
def streamEnv : RunEnv :=
  { allowUnsafe := false
    custom := []
    command := "ls"
    autoYes := true
    homeExists := false
    cwdOutsideHome := false
    prompt := fun _ => .ok true
    spawnOk := true
    drain := .completed [.stdoutMsg ("ab".data), .stderrMsg ("e".data),
      .stdoutMsg ("cd".data)]
    exitCode := 0 }

/-! ## Claim C1 -/

/-- C1, counterexample: the command string consisting of `ls` followed
by a bare newline contains an unquoted, unescaped control operator
(the classifier's own scanner reports one on the raw text), yet with
the bypass off and an empty custom allowlist `ensure_safe_command`
returns plain `Allowed`, because the scanner only ever runs on the
trimmed command and trimming removes the trailing newline. -/
theorem C1_counterexample :
    contains_control_operators ("ls\n".data) = true ∧
    ensure_safe_command false [] "ls\n" = .ok .Allowed := by
  decide

/-- C1, amended: for every command string whose trimmed text contains
an unquoted, unescaped control operator, and with the global
unsafe-bypass switch not set, `ensure_safe_command` never returns plain
`Allowed`: it returns `NeedsConfirmation` or an error. -/
theorem C1_trimmed_operator_never_plain_allowed
    (custom : List String) (cmd : String)
    (h : contains_control_operators (trimChars cmd.data) = true) :
    ensure_safe_command false custom cmd ≠ .ok .Allowed := by
  intro heq
  unfold ensure_safe_command at heq
  dsimp only at heq
  repeat' split at heq
  all_goals simp_all

/-- C1, witness for the amended theorem at `ls ;`. -/
theorem C1_witness :
    ensure_safe_command false [] "ls ;" ≠ .ok .Allowed :=
  C1_trimmed_operator_never_plain_allowed [] "ls ;" (by decide)

/-! ## Claim C2 -/

/-- C2: with the bypass off, any command whose lowercased raw text
contains one of the five destructive patterns, and whose segments pass
the empty/tokenization/allowlist phase (`checkSegments` succeeding with
a seen segment), is rejected by `ensure_safe_command` with one of the
three destructive-pattern errors — for every custom allowlist, and
independent of quoting, since the patterns are matched on the raw
text. -/
theorem C2_destructive_pattern_rejected
    (custom : List String) (cmd : String)
    (hseg : checkSegments custom (split_command_segments (trimChars cmd.data)) false =
      .ok true)
    (hpat : containsSubstr (cmd.data.map rustToLower) ("rm -rf /".data) = true ∨
      containsSubstr (cmd.data.map rustToLower) ("rm -rf -- /".data) = true ∨
      containsSubstr (cmd.data.map rustToLower) ("sudo ".data) = true ∨
      containsSubstr (cmd.data.map rustToLower) ("mkfs".data) = true ∨
      containsSubstr (cmd.data.map rustToLower) ("dd if=".data) = true) :
    ensure_safe_command false custom cmd = .error .blockedRmRf ∨
    ensure_safe_command false custom cmd = .error .blockedSudo ∨
    ensure_safe_command false custom cmd = .error .blockedDisk := by
  have hne : ¬ trimChars cmd.data = [] := by
    intro h0
    rw [h0] at hseg
    simp [split_command_segments, scsAux, checkSegments, trimChars] at hseg
  unfold ensure_safe_command
  dsimp only
  rw [if_neg (by simp), if_neg (by simp [List.isEmpty_iff, hne]), hseg]
  dsimp only
  rw [if_neg (by simp)]
  by_cases h1 : (containsSubstr (cmd.data.map rustToLower) ("rm -rf /".data) ||
      containsSubstr (cmd.data.map rustToLower) ("rm -rf -- /".data)) = true
  · rw [if_pos h1]; exact Or.inl rfl
  · rw [if_neg h1]
    by_cases h2 : containsSubstr (cmd.data.map rustToLower) ("sudo ".data) = true
    · rw [if_pos h2]; exact Or.inr (Or.inl rfl)
    · rw [if_neg h2]
      by_cases h3 : (containsSubstr (cmd.data.map rustToLower) ("mkfs".data) ||
          containsSubstr (cmd.data.map rustToLower) ("dd if=".data)) = true
      · rw [if_pos h3]; exact Or.inr (Or.inr rfl)
      · exfalso
        simp only [Bool.or_eq_true, not_or] at h1 h3
        rcases hpat with h | h | h | h | h <;> simp_all

/-- C2, witness: `echo sudo ls` passes the segment phase (program
`echo` is builtin-allowlisted) but its raw text contains `sudo `, so it
is rejected by the blocklist. -/
theorem C2_witness :
    ensure_safe_command false [] "echo sudo ls" = .error .blockedRmRf ∨
    ensure_safe_command false [] "echo sudo ls" = .error .blockedSudo ∨
    ensure_safe_command false [] "echo sudo ls" = .error .blockedDisk :=
  C2_destructive_pattern_rejected [] "echo sudo ls" (by decide)
    (Or.inr (Or.inr (Or.inl (by decide))))

/-! ## Claim C4 -/

/-- The program-specific rules never produce the allowlist error. -/
lemma enforce_no_commandNotAllowed (program : String) (tokens : List String)
    (p : String) :
    enforce_program_specific_rules program tokens ≠ .error (.commandNotAllowed p) := by
  unfold enforce_program_specific_rules
  repeat' split
  all_goals simp

/-- A segment accepted by the allowlist decision is either token-free
or led by a program in the builtin safe set or the custom allowlist. -/
lemma allowSegmentTokens_ok (custom : List String) (toks : List (List Char))
    (h : allowSegmentTokens custom toks = .ok ()) :
    toks = [] ∨ ∃ prog rest, toks = prog :: rest ∧
      (String.mk prog ∈ SAFE_COMMANDS ∨ String.mk prog ∈ custom) := by
  cases toks with
  | nil => exact Or.inl rfl
  | cons prog rest =>
    refine Or.inr ⟨prog, rest, rfl, ?_⟩
    by_cases hb : String.mk prog ∈ SAFE_COMMANDS
    · exact Or.inl hb
    · by_cases hc : String.mk prog ∈ custom
      · exact Or.inr hc
      · exfalso
        unfold allowSegmentTokens at h
        simp [hb, hc] at h

/-- When the allowlist decision rejects with `commandNotAllowed p`, the
program `p` is in neither the builtin safe set nor the custom
allowlist. -/
lemma allowSegmentTokens_notAllowed (custom : List String) (toks : List (List Char))
    (p : String)
    (h : allowSegmentTokens custom toks = .error (.commandNotAllowed p)) :
    p ∉ SAFE_COMMANDS ∧ p ∉ custom := by
  cases toks with
  | nil => simp [allowSegmentTokens] at h
  | cons prog rest =>
    unfold allowSegmentTokens at h
    by_cases hb : String.mk prog ∈ SAFE_COMMANDS <;>
      by_cases hc : String.mk prog ∈ custom <;>
      simp [hb, hc] at h
    · exact absurd h (enforce_no_commandNotAllowed _ _ _)
    · subst h
      exact ⟨hb, hc⟩

/-- Every nonempty segment accepted by the segment loop tokenizes
successfully and passes the allowlist decision. -/
lemma checkSegments_ok_segments (custom : List String) :
    ∀ (segs : List (List Char)) (saw saw' : Bool),
      checkSegments custom segs saw = .ok saw' →
      ∀ seg ∈ segs, (trimChars seg).isEmpty = false →
        ∃ toks, shell_words_split (trimChars seg) = some toks ∧
          allowSegmentTokens custom toks = .ok () := by
  intro segs
  induction segs with
  | nil => intro saw saw' h seg hmem; simp at hmem
  | cons s rest ih =>
    intro saw saw' h seg hmem hne
    unfold checkSegments at h
    dsimp only at h
    rcases List.mem_cons.mp hmem with hs | hs
    · subst hs
      rw [if_neg (by simp [hne])] at h
      cases hsw : shell_words_split (trimChars seg) with
      | none => simp [hsw] at h
      | some toks =>
        cases hat : allowSegmentTokens custom toks with
        | error e => simp [hsw, hat] at h
        | ok u => cases u; exact ⟨toks, rfl, hat⟩
    · by_cases he : (trimChars s).isEmpty = true
      · rw [if_pos he] at h
        exact ih saw saw' h seg hs hne
      · rw [if_neg he] at h
        cases hsw : shell_words_split (trimChars s) with
        | none => simp [hsw] at h
        | some toks =>
          cases hat : allowSegmentTokens custom toks with
          | error e => simp [hsw, hat] at h
          | ok u =>
            cases u
            simp only [hsw, hat] at h
            exact ih true saw' h seg hs hne

/-- When the segment loop rejects with `commandNotAllowed p`, the
program `p` is allowed by neither list. -/
lemma checkSegments_notAllowed (custom : List String) :
    ∀ (segs : List (List Char)) (saw : Bool) (p : String),
      checkSegments custom segs saw = .error (.commandNotAllowed p) →
      p ∉ SAFE_COMMANDS ∧ p ∉ custom := by
  intro segs
  induction segs with
  | nil => intro saw p h; simp [checkSegments] at h
  | cons s rest ih =>
    intro saw p h
    unfold checkSegments at h
    dsimp only at h
    by_cases he : (trimChars s).isEmpty = true
    · rw [if_pos he] at h
      exact ih saw p h
    · rw [if_neg he] at h
      cases hsw : shell_words_split (trimChars s) with
      | none => simp [hsw] at h
      | some toks =>
        cases hat : allowSegmentTokens custom toks with
        | error e =>
          simp only [hsw, hat, Except.error.injEq] at h
          subst h
          exact allowSegmentTokens_notAllowed custom toks p hat
        | ok u =>
          cases u
          simp only [hsw, hat] at h
          exact ih true p h

/-- A non-error classification implies the segment loop succeeded with
at least one segment seen. -/
lemma ensure_ok_checkSegments (custom : List String) (cmd : String)
    (d : CommandDisposition) (h : ensure_safe_command false custom cmd = .ok d) :
    checkSegments custom (split_command_segments (trimChars cmd.data)) false =
      .ok true := by
  unfold ensure_safe_command at h
  dsimp only at h
  repeat' split at h
  all_goals simp_all

/-- A `commandNotAllowed` rejection comes from the segment loop. -/
lemma ensure_error_commandNotAllowed (custom : List String) (cmd : String)
    (p : String)
    (h : ensure_safe_command false custom cmd = .error (.commandNotAllowed p)) :
    checkSegments custom (split_command_segments (trimChars cmd.data)) false =
      .error (.commandNotAllowed p) := by
  unfold ensure_safe_command at h
  dsimp only at h
  repeat' split at h
  all_goals simp_all

/-- C4: with the bypass off, (i) whenever `ensure_safe_command`
classifies a command without error, every non-whitespace segment of the
split command tokenizes and its first token — the program — is in the
builtin safe set or the custom allowlist; (ii) whenever it rejects with
`CommandNotAllowedError{p}`, the carried program `p` is in neither
list; and (iii) `npm install` is rejected with program `npm`. -/
theorem C4_segment_allowlist :
    (∀ (custom : List String) (cmd : String) (d : CommandDisposition),
      ensure_safe_command false custom cmd = .ok d →
      ∀ seg ∈ split_command_segments (trimChars cmd.data),
        (trimChars seg).isEmpty = false →
        ∃ toks, shell_words_split (trimChars seg) = some toks ∧
          (toks = [] ∨ ∃ prog rest, toks = prog :: rest ∧
            (String.mk prog ∈ SAFE_COMMANDS ∨ String.mk prog ∈ custom))) ∧
    (∀ (custom : List String) (cmd : String) (p : String),
      ensure_safe_command false custom cmd = .error (.commandNotAllowed p) →
      p ∉ SAFE_COMMANDS ∧ p ∉ custom) ∧
    ensure_safe_command false [] "npm install" = .error (.commandNotAllowed "npm") := by
  refine ⟨?_, ?_, by decide⟩
  · intro custom cmd d h seg hmem hne
    obtain ⟨toks, hsw, hat⟩ := checkSegments_ok_segments custom _ false true
      (ensure_ok_checkSegments custom cmd d h) seg hmem hne
    exact ⟨toks, hsw, allowSegmentTokens_ok custom toks hat⟩
  · intro custom cmd p h
    exact checkSegments_notAllowed custom _ false p
      (ensure_error_commandNotAllowed custom cmd p h)

/-- C4, witness at `ls -la` (accepted) for the hypothesis-bearing
parts. -/
theorem C4_witness :
    ∃ toks, shell_words_split (trimChars ("ls -la".data)) = some toks ∧
      (toks = [] ∨ ∃ prog rest, toks = prog :: rest ∧
        (String.mk prog ∈ SAFE_COMMANDS ∨ String.mk prog ∈ ([] : List String))) :=
  C4_segment_allowlist.1 [] "ls -la" .Allowed (by decide) ("ls -la".data)
    (by decide) (by decide)

/-! ## Claim C5 -/

/-- C5: the program-specific extra rules reject `find` with any of the
five action tokens and `sed` with an `-i` flag; a custom-allowlisted
program skips the extra rules entirely (no rejection of any kind from
the allowlist decision); and concretely `find . -delete` and
`sed -i \x27\x27 \x27s/a/b/\x27 f` are rejected with empty custom
allowlist, while the same commands are accepted once their programs are
custom-allowlisted. -/
theorem C5_program_specific_rules :
    (∀ toks : List String, toks.any (fun t => FIND_FORBIDDEN.contains t) = true →
      enforce_program_specific_rules "find" toks = .error .blockedFindActions) ∧
    (∀ toks : List String,
      toks.any (fun t => t == "-i" || isPrefixOfB ("-i".data) t.data) = true →
      enforce_program_specific_rules "sed" toks = .error .blockedSedInPlace) ∧
    (∀ (custom : List String) (prog : List Char) (rest : List (List Char)),
      String.mk prog ∈ custom →
      allowSegmentTokens custom (prog :: rest) = .ok ()) ∧
    ensure_safe_command false [] "find . -delete" = .error .blockedFindActions ∧
    ensure_safe_command false [] "sed -i \x27\x27 \x27s/a/b/\x27 f" =
      .error .blockedSedInPlace ∧
    ensure_safe_command false ["find"] "find . -delete" = .ok .Allowed ∧
    ensure_safe_command false ["sed"] "sed -i \x27\x27 \x27s/a/b/\x27 f" =
      .ok .Allowed := by
  refine ⟨?_, ?_, ?_, by decide, by decide, by decide, by decide⟩
  · intro toks h
    unfold enforce_program_specific_rules
    rw [if_pos (by decide), if_pos h]
  · intro toks h
    unfold enforce_program_specific_rules
    rw [if_neg (by decide), if_pos (by decide), if_pos h]
  · intro custom prog rest hc
    unfold allowSegmentTokens
    simp [hc]

/-- C5, witness instantiating the hypothesis-bearing conjuncts. -/
theorem C5_witness :
    enforce_program_specific_rules "find" ["find", ".", "-delete"] =
      .error .blockedFindActions ∧
    enforce_program_specific_rules "sed" ["sed", "-i"] = .error .blockedSedInPlace ∧
    allowSegmentTokens ["ffmpeg"] ("ffmpeg".data :: ["-i".data]) = .ok () :=
  ⟨C5_program_specific_rules.1 _ (by decide),
    C5_program_specific_rules.2.1 _ (by decide),
    C5_program_specific_rules.2.2.1 ["ffmpeg"] ("ffmpeg".data) ["-i".data]
      (by decide)⟩

/-! ## Claim C6 -/

/-- Inside single quotes, any character other than the closing quote
leaves the scanner in the single-quoted state and sets no flag. -/
lemma ccoAux_single_quoted_inert (inD : Bool) :
    ∀ (s rest : List Char), (∀ c ∈ s, c ≠ '\x27') →
      ccoAux (s ++ rest) true inD false = ccoAux rest true inD false := by
  intro s
  induction s with
  | nil => intro rest _; rfl
  | cons c cs ih =>
    intro rest h
    have hq : ¬ c = '\x27' := h c (List.mem_cons_self c cs)
    have ih' := ih rest (fun x hx => h x (List.mem_cons_of_mem c hx))
    by_cases h1 : c = '\\' <;> by_cases h2 : c = '\"' <;>
      by_cases h3 : c = '\n' <;> by_cases h4 : c = '\x60' <;>
      by_cases h5 : c = '$' <;>
      simp [ccoAux, hq, h1, h2, h3, h4, h5, ih']

/-- Inside double quotes, any character other than `"`, backslash and
`$` leaves the scanner in the double-quoted state and sets no flag
(single-character operators and backticks are inert there; `$(` is
not, which is why `$` is excluded). -/
lemma ccoAux_double_quoted_inert :
    ∀ (s rest : List Char), (∀ c ∈ s, c ≠ '\"' ∧ c ≠ '\\' ∧ c ≠ '$') →
      ccoAux (s ++ rest) false true false = ccoAux rest false true false := by
  intro s
  induction s with
  | nil => intro rest _; rfl
  | cons c cs ih =>
    intro rest h
    obtain ⟨hd, hb, hdol⟩ := h c (List.mem_cons_self c cs)
    have ih' := ih rest (fun x hx => h x (List.mem_cons_of_mem c hx))
    by_cases h1 : c = '\x27' <;> by_cases h3 : c = '\n' <;>
      by_cases h4 : c = '\x60' <;>
      simp [ccoAux, hd, hb, hdol, h1, h3, h4, ih']

/-- C6: control-operator characters are inert to the scanner inside
single quotes, inside double quotes, and when backslash-escaped outside
single quotes; consequently `echo "a;b"`, `echo 'a|b'` and
`grep foo\|bar file` all classify as plain `Allowed` with the bypass
off and an empty custom allowlist. -/
theorem C6_quoted_operators_inert :
    (∀ s post : List Char, (∀ c ∈ s, c ≠ '\x27') →
      contains_control_operators ('\x27' :: s ++ '\x27' :: post) =
        contains_control_operators post) ∧
    (∀ s post : List Char, (∀ c ∈ s, c ≠ '\"' ∧ c ≠ '\\' ∧ c ≠ '$') →
      contains_control_operators ('\"' :: s ++ '\"' :: post) =
        contains_control_operators post) ∧
    (∀ (c : Char) (post : List Char),
      contains_control_operators ('\\' :: c :: post) =
        contains_control_operators post) ∧
    ensure_safe_command false [] "echo \"a;b\"" = .ok .Allowed ∧
    ensure_safe_command false [] "echo \x27a|b\x27" = .ok .Allowed ∧
    ensure_safe_command false [] "grep foo\\|bar file" = .ok .Allowed := by
  have step1 : ∀ (l : List Char), ccoAux ('\x27' :: l) false false false =
      ccoAux l true false false := by intro l; simp [ccoAux]
  have step2 : ∀ (l : List Char), ccoAux ('\x27' :: l) true false false =
      ccoAux l false false false := by intro l; simp [ccoAux]
  have step3 : ∀ (l : List Char), ccoAux ('\"' :: l) false false false =
      ccoAux l false true false := by intro l; simp [ccoAux]
  have step4 : ∀ (l : List Char), ccoAux ('\"' :: l) false true false =
      ccoAux l false false false := by intro l; simp [ccoAux]
  refine ⟨?_, ?_, ?_, by decide, by decide, by decide⟩
  · intro s post h
    unfold contains_control_operators
    rw [List.cons_append, step1, ccoAux_single_quoted_inert false s ('\x27' :: post) h,
      step2]
  · intro s post h
    unfold contains_control_operators
    rw [List.cons_append, step3, ccoAux_double_quoted_inert s ('\"' :: post) h, step4]
  · intro c post
    simp [contains_control_operators, ccoAux]

/-- C6, witness: a quoted semicolon and a quoted pipe are inert. -/
theorem C6_witness :
    contains_control_operators ('\x27' :: [';'] ++ '\x27' :: []) =
      contains_control_operators [] ∧
    contains_control_operators ('\"' :: ['|'] ++ '\"' :: []) =
      contains_control_operators [] :=
  ⟨C6_quoted_operators_inert.1 [';'] [] (by decide),
    C6_quoted_operators_inert.2.1 ['|'] [] (by decide)⟩

/-! ## Claim C3 -/

/-- C3: `ensure_safe_path` succeeds only if both containment checks
pass — the resolved (lexically normalized, cwd-joined) path is under an
allowed root, and the canonicalized deepest existing ancestor (when one
exists) is under an allowed root.  In particular the relative traversal
`../../outside.txt` is rejected, and a path through a symlink to `/etc`
placed inside the workspace is rejected. -/
theorem C3_path_guard_containment :
    (∀ (fs : FileSystem) (p : List PathComponent), ensure_safe_path fs p = .ok () →
      is_within_allowed (resolve_path fs p) (gather_allowed_roots fs) = true ∧
      ∀ a, deepest_existing_ancestor fs (resolve_path fs p) = some a →
        ∃ ca, fs.canonicalize a = some ca ∧
          is_within_allowed ca (gather_allowed_roots fs) = true) ∧
    ensure_safe_path fsTraversal [.parentDir, .parentDir, .normal "outside.txt"] =
      .error (.outsideRoots ["tmp", "outside.txt"]) ∧
    ensure_safe_path fsSymlink [.normal "etc_link", .normal "qqqa-test.conf"] =
      .error (.outsideRoots ["tmp", "home2", "workspace", "etc_link",
        "qqqa-test.conf"]) := by
  refine ⟨?_, by decide, by decide⟩
  intro fs p h
  unfold ensure_safe_path at h
  dsimp only at h
  by_cases h1 : is_within_allowed (resolve_path fs p) (gather_allowed_roots fs) = true
  · refine ⟨h1, ?_⟩
    intro a ha
    rw [if_neg (by simp [h1])] at h
    simp only [ha] at h
    cases hc : fs.canonicalize a with
    | none => simp [hc] at h
    | some ca =>
      simp only [hc] at h
      refine ⟨ca, rfl, ?_⟩
      by_cases h2 : is_within_allowed ca (gather_allowed_roots fs) = true
      · exact h2
      · rw [if_pos (by simp [h2])] at h
        simp at h
  · rw [if_pos (by simp [h1])] at h
    simp at h

/-- C3, witness: a workspace-relative child path is accepted, so the
containment conclusions hold for it. -/
theorem C3_witness :
    is_within_allowed (resolve_path fsTraversal [.normal "dir", .normal "file.txt"])
      (gather_allowed_roots fsTraversal) = true :=
  (C3_path_guard_containment.1 fsTraversal [.normal "dir", .normal "file.txt"]
    (by decide)).1

/-- The spawn/stream half never alters the list of prompts issued. -/
@[simp] lemma runExec_promptsIssued (env : RunEnv) (qs : List String) :
    (runExec env qs).promptsIssued = qs := by
  unfold runExec
  repeat' split
  all_goals rfl

/-! ## Claim C7 -/

/-- C7: whenever the drain loses the race against the 120-second
timeout (and the call reached the spawn: classifier accepted, every
prompt approved, spawn succeeded), `run` calls the kill-switch exactly
in the order terminate-then-wait, returns the timeout error, and the
child, having been reaped by the wait, is not left running. -/
theorem C7_timeout_terminates_child
    (env : RunEnv) (d : CommandDisposition)
    (hcls : ensure_safe_command env.allowUnsafe env.custom env.command = .ok d)
    (hp : ∀ k, env.prompt k = .ok true)
    (hs : env.spawnOk = true)
    (hd : env.drain = .timedOut) :
    (run env).events = [.terminate, .waitChild] ∧
    (run env).result = .error .timedOutErr ∧
    procStateAfter (run env).events = .reaped := by
  unfold run
  simp only [hcls]
  by_cases hh : (env.homeExists && env.cwdOutsideHome) = true <;>
    by_cases ha : env.autoYes = true <;>
    by_cases hm : requiresManualConfirmation d = true <;>
    simp [hh, ha, hm, hp 0, hp 1, hs, hd, runExec, procStateAfter, applyEvent]

/-- C7, witness at a concrete environment whose drain times out. -/
theorem C7_witness :
    (run timeoutEnv).events = [.terminate, .waitChild] ∧
    (run timeoutEnv).result = .error .timedOutErr ∧
    procStateAfter (run timeoutEnv).events = .reaped :=
  C7_timeout_terminates_child timeoutEnv .Allowed (by decide) (fun _ => rfl) rfl rfl

/-! ## Claim C8 -/

/-- C8: given a non-rejected classification, (i) a decline at the
outside-home prompt cancels with `canceledOutsideHome`; (ii) once the
outside-home gate passes, the execute prompt is issued exactly when the
classifier returned `NeedsConfirmation` or auto-approval was off;
(iii) a decline at the execute prompt cancels with `canceled`; (iv) the
outside-home prompt is issued exactly when a home directory is known,
the resolved cwd lies outside it, and auto-approval is off; and
(v, vi) the two cancellation results are distinguishable from the
classifier rejections and from every true execution failure. -/
theorem C8_confirmation_prompts (env : RunEnv) (d : CommandDisposition)
    (hcls : ensure_safe_command env.allowUnsafe env.custom env.command = .ok d) :
    ((env.homeExists && env.cwdOutsideHome && !env.autoYes) = true →
      env.prompt 0 = .ok false →
      (run env).result = .error .canceledOutsideHome) ∧
    (((env.homeExists && env.cwdOutsideHome && !env.autoYes) = false ∨
        env.prompt 0 = .ok true) →
      (executePromptLabel ∈ (run env).promptsIssued ↔
        (requiresManualConfirmation d = true ∨ env.autoYes = false))) ∧
    (((env.homeExists && env.cwdOutsideHome && !env.autoYes) = false ∨
        env.prompt 0 = .ok true) →
      (requiresManualConfirmation d || !env.autoYes) = true →
      env.prompt
        (if (env.homeExists && env.cwdOutsideHome && !env.autoYes) = true
          then 1 else 0) = .ok false →
      (run env).result = .error .canceled) ∧
    (outsideHomePromptLabel ∈ (run env).promptsIssued ↔
      (env.homeExists && env.cwdOutsideHome && !env.autoYes) = true) ∧
    (∀ e : PermError, RunError.canceled ≠ .blocked e ∧
      RunError.canceledOutsideHome ≠ .blocked e) ∧
    (RunError.canceled ≠ .spawnFailed ∧ RunError.canceled ≠ .streamFailed ∧
      RunError.canceled ≠ .timedOutErr ∧ RunError.canceled ≠ .cannotConfirm ∧
      RunError.canceledOutsideHome ≠ .spawnFailed ∧
      RunError.canceledOutsideHome ≠ .streamFailed ∧
      RunError.canceledOutsideHome ≠ .timedOutErr ∧
      RunError.canceledOutsideHome ≠ .cannotConfirm) := by
  have hsplit : ∀ a b : Bool, (a && b) = true → a = true ∧ b = true := by
    intro a b h
    cases a <;> cases b <;> simp_all
  have hparts : ∀ (hc : (env.homeExists && env.cwdOutsideHome && !env.autoYes) = true),
      env.homeExists = true ∧ env.cwdOutsideHome = true ∧ env.autoYes = false := by
    intro hc
    cases hA : env.homeExists <;> cases hB : env.cwdOutsideHome <;>
      cases hC : env.autoYes <;> rw [hA, hB, hC] at hc <;> simp_all
  refine ⟨?_, ?_, ?_, ?_, fun e => ⟨by simp, by simp⟩, by decide⟩
  · intro hcond hp0
    obtain ⟨h1, h2, h3⟩ := hparts hcond
    unfold run
    simp only [hcls]
    simp [h1, h2, h3, hp0]
  · intro hgate
    by_cases hc : (env.homeExists && env.cwdOutsideHome && !env.autoYes) = true
    · have hp0 : env.prompt 0 = .ok true := by
        rcases hgate with hfalse | hp0
        · rw [hc] at hfalse; cases hfalse
        · exact hp0
      obtain ⟨h1, h2, h3⟩ := hparts hc
      unfold run
      simp only [hcls]
      cases hp1 : env.prompt 1 with
      | error u =>
        cases u
        simp [h1, h2, h3, hp0, hp1]
      | ok b =>
        cases b <;> simp [h1, h2, h3, hp0, hp1]
    · unfold run
      simp only [hcls]
      by_cases h12 : (env.homeExists && env.cwdOutsideHome) = true
      · obtain ⟨hA, hB⟩ := hsplit _ _ h12
        have h3 : env.autoYes = true := by
          cases hx : env.autoYes
          · exact absurd (by simp [hA, hB, hx]) hc
          · rfl
        by_cases hm : requiresManualConfirmation d = true
        · cases hp0 : env.prompt 0 with
          | error u => cases u; simp [hA, hB, h3, hm, hp0]
          | ok b => cases b <;> simp [hA, hB, h3, hm, hp0]
        · simp [hA, hB, h3, hm]
      · by_cases hm : requiresManualConfirmation d = true <;>
          by_cases h3 : env.autoYes = true
        · cases hp0 : env.prompt 0 with
          | error u => cases u; simp [h12, h3, hm, hp0]
          | ok b => cases b <;> simp [h12, h3, hm, hp0]
        · cases hp0 : env.prompt 0 with
          | error u => cases u; simp [h12, h3, hm, hp0]
          | ok b => cases b <;> simp [h12, h3, hm, hp0]
        · simp [h12, h3, hm]
        · cases hp0 : env.prompt 0 with
          | error u => cases u; simp [h12, h3, hm, hp0]
          | ok b => cases b <;> simp [h12, h3, hm, hp0]
  · intro hgate hcond hpn
    by_cases hc : (env.homeExists && env.cwdOutsideHome && !env.autoYes) = true
    · have hp0 : env.prompt 0 = .ok true := by
        rcases hgate with hfalse | hp0
        · rw [hc] at hfalse; cases hfalse
        · exact hp0
      obtain ⟨h1, h2, h3⟩ := hparts hc
      rw [if_pos hc] at hpn
      unfold run
      simp only [hcls]
      simp [h1, h2, h3, hp0, hpn]
    · rw [if_neg hc] at hpn
      unfold run
      simp only [hcls]
      by_cases h12 : (env.homeExists && env.cwdOutsideHome) = true
      · obtain ⟨hA, hB⟩ := hsplit _ _ h12
        have h3 : env.autoYes = true := by
          cases hx : env.autoYes
          · exact absurd (by simp [hA, hB, hx]) hc
          · rfl
        have hm : requiresManualConfirmation d = true := by
          rw [h3] at hcond
          simpa using hcond
        simp [hA, hB, h3, hm, hpn]
      · simp [h12, hcond, hpn]
  · by_cases hc : (env.homeExists && env.cwdOutsideHome && !env.autoYes) = true
    · obtain ⟨h1, h2, h3⟩ := hparts hc
      unfold run
      simp only [hcls]
      cases hp0 : env.prompt 0 with
      | error u => cases u; simp [h1, h2, h3, hp0, hc]
      | ok b =>
        cases b
        · simp [h1, h2, h3, hp0, hc]
        · cases hp1 : env.prompt 1 with
          | error u => cases u; simp [h1, h2, h3, hp0, hp1, hc]
          | ok b2 => cases b2 <;> simp [h1, h2, h3, hp0, hp1, hc]
    · unfold run
      simp only [hcls]
      by_cases h12 : (env.homeExists && env.cwdOutsideHome) = true
      · obtain ⟨hA, hB⟩ := hsplit _ _ h12
        have h3 : env.autoYes = true := by
          cases hx : env.autoYes
          · exact absurd (by simp [hA, hB, hx]) hc
          · rfl
        by_cases hm : requiresManualConfirmation d = true
        · cases hp0 : env.prompt 0 with
          | error u =>
            cases u
            simp [hA, hB, h3, hm, hp0, hc, outsideHomePromptLabel, executePromptLabel]
          | ok b =>
            cases b <;>
              simp [hA, hB, h3, hm, hp0, hc, outsideHomePromptLabel,
                executePromptLabel]
        · simp [hA, hB, h3, hm, hc]
      · by_cases hm : requiresManualConfirmation d = true <;>
          by_cases h3 : env.autoYes = true
        · cases hp0 : env.prompt 0 with
          | error u =>
            cases u
            simp [h12, h3, hm, hp0, hc, outsideHomePromptLabel, executePromptLabel]
          | ok b =>
            cases b <;>
              simp [h12, h3, hm, hp0, hc, outsideHomePromptLabel, executePromptLabel]
        · cases hp0 : env.prompt 0 with
          | error u =>
            cases u
            simp [h12, h3, hm, hp0, hc, outsideHomePromptLabel, executePromptLabel]
          | ok b =>
            cases b <;>
              simp [h12, h3, hm, hp0, hc, outsideHomePromptLabel, executePromptLabel]
        · simp [h12, h3, hm, hc]
        · cases hp0 : env.prompt 0 with
          | error u =>
            cases u
            simp [h12, h3, hm, hp0, hc, outsideHomePromptLabel, executePromptLabel]
          | ok b =>
            cases b <;>
              simp [h12, h3, hm, hp0, hc, outsideHomePromptLabel, executePromptLabel]

/-- C8, witness: with the cwd outside home and auto-approval off, a
declined outside-home prompt cancels non-fatally. -/
theorem C8_witness :
    (run declineEnv).result = .error .canceledOutsideHome :=
  (C8_confirmation_prompts declineEnv .Allowed (by decide)).1 (by decide) rfl

/-! ## Claim C9 -/

/-- The drain loop with no error message: every message appends its
chunk to the callback record (in arrival order) and its payload to the
matching buffer. -/
lemma collectGo_no_error :
    ∀ (msgs : List StreamMsg) (chunks : List (StreamKind × List Char))
      (out err : List Char), StreamMsg.errorMsg ∉ msgs →
      collectGo msgs chunks out err =
        (chunks.reverse ++ msgs.filterMap chunkOf,
          .ok (out ++ stdoutData msgs, err ++ stderrData msgs)) := by
  intro msgs
  induction msgs with
  | nil => intro chunks out err _; simp [collectGo, stdoutData, stderrData]
  | cons m rest ih =>
    intro chunks out err hne
    have hrest : StreamMsg.errorMsg ∉ rest := fun h => hne (List.mem_cons_of_mem m h)
    cases m with
    | stdoutMsg dd =>
      simp [collectGo, ih _ _ _ hrest, stdoutData, stderrData, chunkOf, stdoutOf,
        stderrOf]
    | stderrMsg dd =>
      simp [collectGo, ih _ _ _ hrest, stdoutData, stderrData, chunkOf, stdoutOf,
        stderrOf]
    | errorMsg => exact absurd (List.mem_cons_self _ _) hne

/-- The stdout fragments recorded in the callback chunks are exactly
the stdout payloads of the messages. -/
lemma chunks_stdout (msgs : List StreamMsg) :
    (msgs.filterMap chunkOf).filterMap stdoutPart = msgs.filterMap stdoutOf := by
  induction msgs with
  | nil => rfl
  | cons m rest ih => cases m <;> simp [chunkOf, stdoutPart, stdoutOf, ih]

/-- The trailing-newline fixup yields a buffer ending in a newline. -/
lemma ensureTrailingNewline_getLast (s : List Char) :
    (ensureTrailingNewline s).getLast? = some '\n' := by
  unfold ensureTrailingNewline
  split
  · next h => simpa using h
  · exact List.getLast?_concat _

/-- The trailing-newline fixup never yields an empty buffer. -/
lemma ensureTrailingNewline_ne_nil (s : List Char) : ensureTrailingNewline s ≠ [] := by
  unfold ensureTrailingNewline
  split
  · next h => intro h0; subst h0; simp at h
  · simp

/-- The trailing-newline fixup appends at most one newline. -/
lemma ensureTrailingNewline_eq (s : List Char) :
    ensureTrailingNewline s =
      s ++ (if s.getLast? == some '\n' then [] else ['\n']) := by
  unfold ensureTrailingNewline
  split <;> simp_all

/-- The whole summary ends with a newline (the stderr section's ensured
trailing newline). -/
lemma mkSummary_getLast (code : Int) (out err : List Char) :
    (mkSummary code out err).getLast? = some '\n' := by
  unfold mkSummary
  repeat rw [List.getLast?_append_of_ne_nil]
  · exact ensureTrailingNewline_getLast err
  all_goals simp [List.append_eq_nil, ensureTrailingNewline_ne_nil]

/-- The summary is the exit-code line, the stdout header, the stdout
buffer verbatim, and a tail (the ensured newline and the stderr
section). -/
lemma mkSummary_shape (code : Int) (out err : List Char) :
    ∃ tail, mkSummary code out err =
      ("Exit code: " ++ toString code ++ "\n").data ++
        ("--- stdout ---\n").data ++ out ++ tail := by
  refine ⟨(if out.getLast? == some '\n' then [] else ['\n']) ++
    ("--- stderr ---\n").data ++ ensureTrailingNewline err, ?_⟩
  unfold mkSummary
  rw [ensureTrailingNewline_eq out]
  simp [List.append_assoc]

/-- C9: on a successful execution (classifier accepted, prompts
approved, spawn succeeded, drain completed without a stream error), the
callback is invoked once per stdout/stderr message in arrival order,
the concatenation of the stdout fragments passed to the callback equals
the stdout buffer placed in the summary's stdout section, and the
summary has the documented three-part shape with a trailing newline
ensured in each section. -/
theorem C9_stream_callback_summary
    (env : RunEnv) (d : CommandDisposition) (msgs : List StreamMsg)
    (hcls : ensure_safe_command env.allowUnsafe env.custom env.command = .ok d)
    (hp : ∀ k, env.prompt k = .ok true)
    (hs : env.spawnOk = true)
    (hd : env.drain = .completed msgs)
    (hne : StreamMsg.errorMsg ∉ msgs) :
    (run env).chunks = msgs.filterMap chunkOf ∧
    ((run env).chunks.filterMap stdoutPart).flatten = stdoutData msgs ∧
    (run env).result =
      .ok (mkSummary env.exitCode (stdoutData msgs) (stderrData msgs)) ∧
    (∃ tail, mkSummary env.exitCode (stdoutData msgs) (stderrData msgs) =
      ("Exit code: " ++ toString env.exitCode ++ "\n").data ++
        ("--- stdout ---\n").data ++ stdoutData msgs ++ tail) ∧
    (mkSummary env.exitCode (stdoutData msgs) (stderrData msgs)).getLast? =
      some '\n' := by
  have hcol : collect msgs =
      (msgs.filterMap chunkOf, .ok (stdoutData msgs, stderrData msgs)) := by
    simpa [collect] using collectGo_no_error msgs [] [] [] hne
  have hrun : (run env).chunks = msgs.filterMap chunkOf ∧
      (run env).result =
        .ok (mkSummary env.exitCode (stdoutData msgs) (stderrData msgs)) := by
    unfold run
    simp only [hcls]
    by_cases hh : (env.homeExists && env.cwdOutsideHome) = true <;>
      by_cases ha : env.autoYes = true <;>
      by_cases hm : requiresManualConfirmation d = true <;>
      simp [hh, ha, hm, hp 0, hp 1, hs, hd, runExec, hcol]
  refine ⟨hrun.1, ?_, hrun.2, mkSummary_shape _ _ _, mkSummary_getLast _ _ _⟩
  rw [hrun.1, chunks_stdout]
  rfl

/-- C9, witness at a two-write stdout stream with an interleaved stderr
write. -/
theorem C9_witness :
    (run streamEnv).chunks =
      [StreamMsg.stdoutMsg ("ab".data), StreamMsg.stderrMsg ("e".data),
        StreamMsg.stdoutMsg ("cd".data)].filterMap chunkOf :=
  (C9_stream_callback_summary streamEnv .Allowed
    [.stdoutMsg ("ab".data), .stderrMsg ("e".data), .stdoutMsg ("cd".data)]
    (by decide) (fun _ => rfl) rfl rfl (by decide)).1

/-! ## Claim C10 -/

/-- C10: the per-segment allowlist check runs before the
destructive-pattern blocklist, so `sudo rm -rf /` is rejected with the
recoverable `CommandNotAllowedError` carrying program `sudo`, not with
the destructive-pattern error; after the caller extends the allowlist
with `sudo`, the retry is still rejected, now by the blocklist (the
`rm -rf /` pattern fires first). -/
theorem C10_allowlist_before_blocklist :
    ensure_safe_command false [] "sudo rm -rf /" =
      .error (.commandNotAllowed "sudo") ∧
    ensure_safe_command false ["sudo"] "sudo rm -rf /" = .error .blockedRmRf := by
  decide

end Qqqa
